import Mathlib

/-!
# Verification of the LiveNest real-time reconciliation core

This development embeds, in Lean, the core data model and algorithms of the
LiveNest repository:

* the server-side structural HTML differ (`ComputeDiff` / `diffNodes` /
  `sameAttributes` / `renderNode`, from the diff engine source file),
* the per-connection message loop of the WebSocket handler
  (`liveview/socket_handler.go`: event routing, re-render, flash
  attachment, outbound message construction),
* the session / socket flash store (`liveview/builder.go`),
* the client-side patch applier and DOM merge algorithm
  (`liveview/static/liveview.js`: `applyDiff`, `applyDiffToNode`,
  `applyNodeChanges`, `morphdom`, `updateAttributes`, and the focus /
  pending-input tracking).

HTML parsing (`golang.org/x/net/html.ParseFragment` on the server, the
browser's `innerHTML` on the client) is a library boundary: parsed markup is
represented by the tree type `HNode`, and the client-side re-parse of
serialized markup is modelled by the executable `parseHTML` below, with
round-trip assumptions stated explicitly as hypotheses where a theorem
depends on them.

Machine integers play no role here; all data is strings, lists and trees.
-/

/-- A parsed HTML node: an element with a tag, an ordered attribute list and
ordered children, or a text node.  This is the shape the Go diff engine works
on (`html.Node` restricted to `ElementNode`/`TextNode`, which are the only
node kinds `diffNodes` distinguishes). -/
inductive HNode where
  | elem (tag : String) (attrs : List (String × String)) (children : List HNode)
  | text (data : String)
deriving Repr

mutual

/-- Decidable equality of nodes (written by hand because automatic deriving
does not handle the nested `List HNode`). -/
def HNode.decEq : (a b : HNode) → Decidable (a = b)
  | .elem t1 a1 c1, .elem t2 a2 c2 =>
      if ht : t1 = t2 then
        if ha : a1 = a2 then
          match HNode.decEqList c1 c2 with
          | isFalse h => isFalse (fun he => by cases he; exact h rfl)
          | isTrue hc => isTrue (by rw [ht, ha, hc])
        else isFalse (fun he => by cases he; exact ha rfl)
      else isFalse (fun he => by cases he; exact ht rfl)
  | .elem _ _ _, .text _ => isFalse (fun h => by cases h)
  | .text _, .elem _ _ _ => isFalse (fun h => by cases h)
  | .text d1, .text d2 =>
      if hd : d1 = d2 then isTrue (by rw [hd])
      else isFalse (fun he => by cases he; exact hd rfl)

/-- Decidable equality of node lists. -/
def HNode.decEqList : (a b : List HNode) → Decidable (a = b)
  | [], [] => isTrue rfl
  | [], _ :: _ => isFalse (fun h => by cases h)
  | _ :: _, [] => isFalse (fun h => by cases h)
  | x :: xs, y :: ys =>
      match HNode.decEq x y with
      | isFalse h => isFalse (fun he => by cases he; exact h rfl)
      | isTrue hx =>
        match HNode.decEqList xs ys with
        | isFalse h => isFalse (fun he => by cases he; exact h rfl)
        | isTrue hxs => isTrue (by rw [hx, hxs])

end

instance : DecidableEq HNode := HNode.decEq

namespace HNode

/-- Whether the node is an element node. -/
def isElem : HNode → Bool
  | .elem _ _ _ => true
  | .text _ => false

/-- The tag of an element node (`""` for text). -/
def tagOf : HNode → String
  | .elem t _ _ => t
  | .text _ => ""

end HNode

/-- `getChildren` from the diff engine: all child nodes of a node (text nodes
included), in document order. -/
def getChildren : HNode → List HNode
  | .elem _ _ cs => cs
  | .text _ => []

/-- Last-wins lookup of an attribute key, modelling the Go map built by
`sameAttributes` (`for _, attr := range oldNode.Attr { oldAttrs[attr.Key] =
attr.Val }`: a later duplicate key overwrites an earlier one). -/
def lastLookup (attrs : List (String × String)) (k : String) : Option String :=
  attrs.reverse.lookup k

/-- `sameAttributes` from the diff engine: equal attribute count, and every
attribute of the new node is present in the old node's (last-wins) attribute
map with the same value. -/
def sameAttributes (oldAttrs newAttrs : List (String × String)) : Bool :=
  oldAttrs.length == newAttrs.length &&
    newAttrs.all fun p => lastLookup oldAttrs p.1 == some p.2

/-- Character-level escaping performed when serializing text and attribute
values (the `html.Render` escaping used by `renderNode`: `&`, `'`, `<`, `>`
and `"` become entities). -/
def escChar (c : Char) : List Char :=
  if c = '&' then "&amp;".toList
  else if c = '\'' then "&#39;".toList
  else if c = '<' then "&lt;".toList
  else if c = '>' then "&gt;".toList
  else if c = '"' then "&#34;".toList
  else [c]

/-- Escape a string for inclusion in serialized markup. -/
def escapeStr (s : String) : String :=
  String.mk (s.toList.flatMap escChar)

/-- Serialization of one attribute as ` key="value"`. -/
def renderAttr (p : String × String) : String :=
  " " ++ p.1 ++ "=\"" ++ escapeStr p.2 ++ "\""

mutual

/-- `renderNode` from the diff engine (a model of `html.Render` on the
fragment subset: elements with attribute lists and closing tags, text with
entity escaping). -/
def renderNode : HNode → String
  | .text d => escapeStr d
  | .elem t attrs cs =>
      "<" ++ t ++ String.join (attrs.map renderAttr) ++ ">" ++
        renderList cs ++ "</" ++ t ++ ">"

/-- Serialization of a list of sibling nodes. -/
def renderList : List HNode → String
  | [] => ""
  | n :: ns => renderNode n ++ renderList ns

end

/-- One value of the wire patch tree.  The Go `Diff` is
`map[string]interface{}`; the values this system exchanges are
`{"s": [markup]}` (full replacement / text content), `{"children": {...}}`
(nested per-child patches), `{"attr": {...}}` (attribute add/remove/update)
and `{"text": ...}` (text-content replacement) — the latter two are
understood by the client's `applyNodeChanges` but never produced by the
server's `diffNodes`.  (The client's `"d"` branch addresses nodes by global
element id outside the patched subtree and is likewise never produced by the
server; it is not modelled.)  A patch level is a finite map from structural
child index to a value; it is represented as an association list with
ascending keys, matching the JSON encoding of the Go map (sorted keys) and
the ascending iteration order of integer-like keys in the client's
`Object.entries`. -/
inductive DiffVal where
  | s (content : String)
  | children (entries : List (Nat × DiffVal))
  | attr (changes : List (String × Option String))
  | text (content : String)
deriving Repr

mutual

/-- Decidable equality of patch values (by hand, for the nested list). -/
def DiffVal.decEq : (a b : DiffVal) → Decidable (a = b)
  | .s c1, .s c2 =>
      if hc : c1 = c2 then isTrue (by rw [hc])
      else isFalse (fun he => by cases he; exact hc rfl)
  | .children e1, .children e2 =>
      match DiffVal.decEqEntries e1 e2 with
      | isFalse h => isFalse (fun he => by cases he; exact h rfl)
      | isTrue hc => isTrue (by rw [hc])
  | .attr c1, .attr c2 =>
      if hc : c1 = c2 then isTrue (by rw [hc])
      else isFalse (fun he => by cases he; exact hc rfl)
  | .text c1, .text c2 =>
      if hc : c1 = c2 then isTrue (by rw [hc])
      else isFalse (fun he => by cases he; exact hc rfl)
  | .s _, .children _ => isFalse (fun h => by cases h)
  | .s _, .attr _ => isFalse (fun h => by cases h)
  | .s _, .text _ => isFalse (fun h => by cases h)
  | .children _, .s _ => isFalse (fun h => by cases h)
  | .children _, .attr _ => isFalse (fun h => by cases h)
  | .children _, .text _ => isFalse (fun h => by cases h)
  | .attr _, .s _ => isFalse (fun h => by cases h)
  | .attr _, .children _ => isFalse (fun h => by cases h)
  | .attr _, .text _ => isFalse (fun h => by cases h)
  | .text _, .s _ => isFalse (fun h => by cases h)
  | .text _, .children _ => isFalse (fun h => by cases h)
  | .text _, .attr _ => isFalse (fun h => by cases h)

/-- Decidable equality of patch entry lists. -/
def DiffVal.decEqEntries : (a b : List (Nat × DiffVal)) → Decidable (a = b)
  | [], [] => isTrue rfl
  | [], _ :: _ => isFalse (fun h => by cases h)
  | _ :: _, [] => isFalse (fun h => by cases h)
  | (i, x) :: xs, (j, y) :: ys =>
      if hi : i = j then
        match DiffVal.decEq x y with
        | isFalse h => isFalse (fun he => by cases he; exact h rfl)
        | isTrue hx =>
          match DiffVal.decEqEntries xs ys with
          | isFalse h => isFalse (fun he => by cases he; exact h rfl)
          | isTrue hxs => isTrue (by rw [hi, hx, hxs])
      else isFalse (fun he => by cases he; exact hi rfl)

end

instance : DecidableEq DiffVal := DiffVal.decEq

/-- A (sub-)patch: a finite map from structural index to patch value. -/
abbrev Diff := List (Nat × DiffVal)

mutual

/-- `diffNodes` from the diff engine: recursively compare two nodes at the
same structural position `index`.
Text vs text: emit the new text as an `"s"` leaf when the content differs.
Different node type or different tag (`Data`): emit a full-subtree
replacement `"s"` leaf with the new node serialized.
Same element tag but differing attributes: emit a full-subtree replacement
`"s"` leaf (the code comment reads "For now, replace the whole node if
attributes differ").
Differing child count: emit a full-subtree replacement `"s"` leaf.
Otherwise: recursively diff the children pairwise and, when any child
produced a patch, wrap the merged child patches in a `"children"` entry. -/
def diffNodes (oldNode newNode : HNode) (index : Nat) : Diff :=
  match oldNode, newNode with
  | .text od, .text nd =>
      if od ≠ nd then [(index, DiffVal.s nd)] else []
  | oldNode, newNode =>
      -- different node types or different tags ⇒ full replacement
      if oldNode.isElem ≠ newNode.isElem ∨ oldNode.tagOf ≠ newNode.tagOf then
        [(index, DiffVal.s (renderNode newNode))]
      else
        match oldNode, newNode with
        | .elem _ oa oc, .elem _ na nc =>
            if ¬ sameAttributes oa na then
              [(index, DiffVal.s (renderNode newNode))]
            else if oc.length ≠ nc.length then
              [(index, DiffVal.s (renderNode newNode))]
            else
              let childrenDiff := diffChildren oc nc 0
              if childrenDiff ≠ [] then
                [(index, DiffVal.children childrenDiff)]
              else []
        | _, _ => []

/-- The merged per-child patches of the children loop in `diffNodes`
(`for i := 0; i < len(oldChildren); i++ { childDiff := diffNodes(old[i],
new[i], i); ... merge ... }`).  Each recursive call contributes at most one
entry keyed by its own index, so the merge is a concatenation with ascending
keys. -/
def diffChildren : List HNode → List HNode → Nat → Diff
  | [], _, _ => []
  | _, [], _ => []
  | o :: os, n :: ns, i => diffNodes o n i ++ diffChildren os ns (i + 1)

end

/-- `ComputeDiff` from the diff engine.  Identical strings short-circuit to
an empty diff; a parse failure of either side (modelled by the `parse`
parameter, the `html.ParseFragment` + `unwrapFragment` library boundary)
yields a whole-document replacement `{"0": {"s": [newHTML]}}`; otherwise the
unwrapped roots are compared by `diffNodes` and an empty structural diff is
returned as the empty patch. -/
def ComputeDiff (parse : String → Option HNode) (oldHTML newHTML : String) : Diff :=
  if oldHTML = newHTML then []
  else
    match parse oldHTML with
    | none => [(0, DiffVal.s newHTML)]
    | some oldRoot =>
        match parse newHTML with
        | none => [(0, DiffVal.s newHTML)]
        | some newRoot => diffNodes oldRoot newRoot 0

/-! ## A concrete markup reader

The client re-parses serialized markup with the browser's `innerHTML`
(`temp.innerHTML = content` in `applyNodeChanges` / `patch`).  The browser is
a library boundary; `parseHTML` below is an executable model of it on the
well-formed fragment subset that `renderNode` produces (elements with quoted
attributes and matching close tags, entity-escaped text).  Theorems that
depend on serialize-then-reparse being faithful take that round trip as an
explicit hypothesis on the concrete subtrees involved, checked by evaluation
in the witnesses. -/

/-- Characters allowed in tag and attribute names. -/
def isNameChar (c : Char) : Bool :=
  c.isAlphanum || c = '-'

/-- Decode one leading character (entity-aware); returns the decoded
character and the remaining input. -/
def unescChar : List Char → Char × List Char
  | [] => (' ', [])
  | '&' :: rest =>
      if ("amp;".toList).isPrefixOf rest then ('&', rest.drop 4)
      else if ("#39;".toList).isPrefixOf rest then ('\'', rest.drop 4)
      else if ("lt;".toList).isPrefixOf rest then ('<', rest.drop 3)
      else if ("gt;".toList).isPrefixOf rest then ('>', rest.drop 3)
      else if ("#34;".toList).isPrefixOf rest then ('"', rest.drop 4)
      else ('&', rest)
  | c :: rest => (c, rest)

/-- Entity-decode a whole character list (fuel-bounded). -/
def unescapeChars : Nat → List Char → List Char
  | 0, _ => []
  | _, [] => []
  | fuel + 1, cs =>
      let (c, rest) := unescChar cs
      c :: unescapeChars fuel rest

/-- Read attributes up to (but not including) the closing `>`. -/
def parseAttrs : Nat → List Char → List (String × String) × List Char
  | 0, cs => ([], cs)
  | fuel + 1, cs =>
      match cs with
      | ' ' :: rest =>
          let (name, rest1) := rest.span isNameChar
          match name, rest1 with
          | _ :: _, '=' :: '"' :: rest2 =>
              let (rawVal, rest3) := rest2.span (fun c => c ≠ '"')
              let rest4 := rest3.drop 1
              let (more, rest5) := parseAttrs fuel rest4
              ((String.mk name, String.mk (unescapeChars (rawVal.length + 1) rawVal)) :: more,
               rest5)
          | _, _ => ([], cs)
      | _ => ([], cs)

/-- Skip a well-formed `</tag>` close tag, if present. -/
def skipCloseTag (tag : List Char) (cs : List Char) : List Char :=
  let want := '<' :: '/' :: tag ++ ['>']
  if want.isPrefixOf cs then cs.drop want.length else cs

/-- Parse a sequence of sibling nodes, stopping at a close tag or the end of
input (fuel-bounded recursive descent). -/
def parseNodes : Nat → List Char → List HNode × List Char
  | 0, cs => ([], cs)
  | fuel + 1, cs =>
      match cs with
      | [] => ([], [])
      | '<' :: '/' :: rest => ([], '<' :: '/' :: rest)
      | '<' :: rest =>
          let (tag, rest1) := rest.span isNameChar
          match tag with
          | [] =>
              -- not a tag: treat the lone '<' as text
              let (siblings, restOut) := parseNodes fuel rest
              (HNode.text "<" :: siblings, restOut)
          | _ :: _ =>
              let (attrs, rest2) := parseAttrs (rest1.length + 1) rest1
              match rest2 with
              | '>' :: rest3 =>
                  let (children, rest4) := parseNodes fuel rest3
                  let rest5 := skipCloseTag tag rest4
                  let (siblings, restOut) := parseNodes fuel rest5
                  (HNode.elem (String.mk tag) attrs children :: siblings, restOut)
              | _ => ([], rest2)
      | c :: rest =>
          let (txt, rest1) := (c :: rest).span (fun ch => ch ≠ '<')
          let (siblings, restOut) := parseNodes fuel rest1
          (HNode.text (String.mk (unescapeChars (txt.length + 1) txt)) :: siblings, restOut)

/-- Parse a markup string into the list of top-level nodes it denotes (the
model of assigning it to `innerHTML` and reading back `childNodes`). -/
def parseHTML (s : String) : List HNode :=
  (parseNodes (s.length + 1) s.toList).1

/-! ## The client-side patch applier (`liveview.js`)

The client functions below are modelled in the configuration the C2-style
claims condition on: no DOM node holds user focus (`this.focusedInput` is
`null`, `this.pendingInputs` is empty).  Every branch of the JavaScript that
tests `focusedInput` therefore takes its `null` arm; those branches are noted
in the doc comments.  The focus / pending behaviour itself is modelled
separately (see `morphControl` below, for the form-control value rules). -/

/-- The form-control tags that `applyNodeChanges` and `morphdom` special-case
(`node.tagName === 'INPUT' || 'TEXTAREA' || 'SELECT'`; tags are stored
lower-case here, the comparison is the same). -/
def formTags : List String := ["input", "textarea", "select"]

/-- `nodeName` of a DOM node: the tag for elements, `#text` for text nodes
(used by `morphdom`'s `fromNode.nodeName !== toNode.nodeName` check). -/
def nodeName : HNode → String
  | .elem t _ _ => t
  | .text _ => "#text"

/-- Whether an attribute list has an attribute named `k`
(`node.hasAttribute(k)`). -/
def hasAttr (attrs : List (String × String)) (k : String) : Bool :=
  (attrs.lookup k).isSome

/-- `setAttribute`: overwrite the attribute in place if present, else append
it. -/
def setAttr : List (String × String) → String → String → List (String × String)
  | [], k, v => [(k, v)]
  | (k', v') :: rest, k, v =>
      if k' = k then (k, v) :: rest else (k', v') :: setAttr rest k v

/-- `updateAttributes` from `liveview.js`: remove the from-node's attributes
that the to-node lacks, then set every to-node attribute (the JavaScript
skips the set when the value is already equal; that is observably the same
result). -/
def updateAttributes (fromAttrs toAttrs : List (String × String)) :
    List (String × String) :=
  let kept := fromAttrs.filter fun p => hasAttr toAttrs p.1
  toAttrs.foldl (fun acc p => setAttr acc p.1 p.2) kept

/-- The first element child of a parsed fragment
(`temp.firstElementChild`). -/
def firstElementChild (ns : List HNode) : Option HNode :=
  ns.find? HNode.isElem

mutual

/-- `morphdom` from `liveview.js`, restricted to its structural effect (tag
structure, attributes, text; the `value`/`checked` properties it also
maintains are not part of the DOM structure and are modelled separately by
`morphControl`).  Differing `nodeName` replaces the from-node with (a clone
of) the to-node.  Otherwise attributes are updated; for a form control
(`INPUT`/`TEXTAREA`/`SELECT`) the function handles the value and returns
without morphing children; for a text node the text content is updated; for
any other element the children are morphed pairwise by position. -/
def morphdom (fromNode toNode : HNode) : HNode :=
  if nodeName fromNode ≠ nodeName toNode then toNode
  else
    match fromNode, toNode with
    | .elem tg fa fc, .elem _ ta tc =>
        let attrs2 := updateAttributes fa ta
        if tg ∈ formTags then
          -- the three-way focused/pending value rule runs here and then
          -- returns: children are not morphed for form controls
          HNode.elem tg attrs2 fc
        else
          HNode.elem tg attrs2 (morphChildren fc tc)
    | .text _, .text tb => HNode.text tb
    | _, _ => toNode

/-- The child loop of `morphdom`: children past the to-list are removed,
missing ones are appended, text/text pairs get their content updated,
element/element pairs recurse, mixed pairs are replaced by the to-child. -/
def morphChildren : List HNode → List HNode → List HNode
  | _, [] => []
  | [], t :: ts => t :: morphChildren [] ts
  | f :: fs, t :: ts =>
      (match f, t with
       | .text _, .text tb => HNode.text tb
       | .elem _ _ _, .elem _ _ _ => morphdom f t
       | _, _ => t) :: morphChildren fs ts

end

/-- Replace the child at index `i` by the (possibly empty, possibly longer)
node list `rs`, leaving other children in place (`parent.replaceChild` /
multi-node `insertBefore` + `removeChild`). -/
def spliceAt : List HNode → Nat → List HNode → List HNode
  | [], _, _ => []
  | _ :: xs, 0, rs => rs ++ xs
  | x :: xs, i + 1, rs => x :: spliceAt xs i rs

mutual

/-- `applyNodeChanges` from `liveview.js`, under the no-focus configuration,
as the list of nodes that end up in the place of `node`.

`"s"` content: a text node gets the content as its new text (the
focused-input guard is vacuous with no focus); a form-control element whose
re-parsed content has a first element child of the same tag is merged by
`morphdom`; otherwise (the focus-containment `morphdom` branch being vacuous
with no focus) the content is re-parsed and fully replaces the node — one
parsed node replaces it in place, several replace it with all of them, and
an empty parse result replaces it with a text node holding the raw content.

`"children"`: each entry is applied to the child at its numeric index
(missing children are skipped).

`"attr"`: a `null` value removes the attribute, otherwise it is set (never
produced by this server; a text node has no attributes to change).

`"text"`: `textContent` assignment — for an element this replaces all
children by a single text node (none if empty), for a text node it sets the
data. -/
def applyNodeChanges (node : HNode) : DiffVal → List HNode
  | .s content =>
      match node with
      | .text _ => [HNode.text content]
      | .elem tg attrs cs =>
          if tg ∈ formTags then
            match firstElementChild (parseHTML content) with
            | some newNode =>
                if newNode.tagOf = tg then [morphdom (HNode.elem tg attrs cs) newNode]
                else replaceWithContent content
            | none => replaceWithContent content
          else replaceWithContent content
  | .children entries => [applyDiffToNode node entries]
  | .attr changes =>
      match node with
      | .elem tg attrs cs =>
          [HNode.elem tg
            (changes.foldl
              (fun acc c =>
                match c.2 with
                | none => acc.filter fun p => p.1 ≠ c.1
                | some v => setAttr acc c.1 v)
              attrs) cs]
      | .text d => [HNode.text d]
  | .text content =>
      match node with
      | .elem tg attrs _ =>
          [HNode.elem tg attrs (if content = "" then [] else [HNode.text content])]
      | .text _ => [HNode.text content]

/-- `applyDiffToNode` from `liveview.js`: walk the entries of a children
patch in order, fetching the child at each numeric index from the current
node and applying the entry's changes to it (a missing child is skipped). -/
def applyDiffToNode (node : HNode) : List (Nat × DiffVal) → HNode
  | [] => node
  | (i, v) :: rest =>
      let node2 :=
        match node with
        | .elem tg attrs cs =>
            match cs.get? i with
            | some child => HNode.elem tg attrs (spliceAt cs i (applyNodeChanges child v))
            | none => HNode.elem tg attrs cs
        | .text d => HNode.text d
      applyDiffToNode node2 rest

/-- The full-replacement arm of the `"s"` case: re-parse the content and
substitute the resulting fragment for the node (empty parse result ⇒ a text
node with the raw content). -/
def replaceWithContent (content : String) : List HNode :=
  match parseHTML content with
  | [] => [HNode.text content]
  | ns => ns

end

/-- `applyDiff` from `liveview.js`: the root is the container's first
element child — when the container holds no element (a text-only render)
nothing is applied; when the patch has a `"0"` entry it is applied to the
root node, otherwise the patch entries index the root's children.  The
result is the container's new child list. -/
def applyDiff (root : HNode) (diff : Diff) : List HNode :=
  if root.isElem then
    match diff.lookup 0 with
    | some v => applyNodeChanges root v
    | none => [applyDiffToNode root diff]
  else [root]

/-! ## Observable DOM equivalence and side conditions -/

mutual

/-- Observable structural equality in the sense of the specification's
invariant: same tag structure, same attributes (as a set — attribute order
is not observable; the comparison reuses the diff engine's own
`sameAttributes`) and same text. -/
def structEq : HNode → HNode → Bool
  | .text a, .text b => a == b
  | .elem t1 a1 c1, .elem t2 a2 c2 =>
      t1 == t2 && sameAttributes a1 a2 && structEqList c1 c2
  | _, _ => false

/-- Pairwise structural equality of node lists (equal length required). -/
def structEqList : List HNode → List HNode → Bool
  | [], [] => true
  | a :: as', b :: bs => structEq a b && structEqList as' bs
  | _, _ => false

end

mutual

/-- No form control (`input`/`textarea`/`select`) anywhere in the tree. -/
def noForms : HNode → Bool
  | .text _ => true
  | .elem t _ cs => decide (t ∉ formTags) && noFormsList cs

/-- `noForms` over a node list. -/
def noFormsList : List HNode → Bool
  | [] => true
  | n :: ns => noForms n && noFormsList ns

end

mutual

/-- Compatibility of an old and a new render tree for faithful patch
application: at no structural position that the diff walk matches does a
text node in the old tree face an element node in the new tree (the client
would write the element's serialized markup into the text node's character
data).  Positions where the diff emits a whole-subtree replacement impose no
constraint on the subtrees. -/
def compat : HNode → HNode → Bool
  | .text _, .elem _ _ _ => false
  | .text _, .text _ => true
  | .elem _ _ _, .text _ => true
  | .elem t1 a1 c1, .elem t2 a2 c2 =>
      if t1 == t2 && sameAttributes a1 a2 && c1.length == c2.length then
        compatList c1 c2
      else true

/-- `compat` over child lists, pairwise. -/
def compatList : List HNode → List HNode → Bool
  | [], [] => true
  | a :: as', b :: bs => compat a b && compatList as' bs
  | _, _ => true

end

mutual

/-- Attribute keys are duplicate-free throughout the tree (true of any
parsed DOM; needed because `sameAttributes` compares via a last-wins
map). -/
def wfAttrs : HNode → Bool
  | .text _ => true
  | .elem _ attrs cs => (attrs.map Prod.fst).Nodup && wfAttrsList cs

/-- `wfAttrs` over a node list. -/
def wfAttrsList : List HNode → Bool
  | [] => true
  | n :: ns => wfAttrs n && wfAttrsList ns

end

mutual

/-- All subtrees of a node (the node itself included). -/
def subnodes : HNode → List HNode
  | .text d => [.text d]
  | .elem t a cs => .elem t a cs :: subnodesList cs

/-- All subtrees of each node of a list. -/
def subnodesList : List HNode → List HNode
  | [] => []
  | n :: ns => subnodes n ++ subnodesList ns

end

/-! ## Session, socket and flash store (`liveview/builder.go`)

`Session.Data` holds `interface{}` values; the value type is a type
parameter `α` here.  The Go maps are modelled as functions to `Option`.
The per-session mutex serializes access and has no functional content. -/

/-- `Session` from `builder.go`: the assigns-like data map and the
flash-category → message map. -/
structure Session (α : Type) where
  Data : String → Option α
  Flashes : String → Option String

/-- `NewSession`: both maps empty. -/
def NewSession (α : Type) : Session α :=
  { Data := fun _ => none, Flashes := fun _ => none }

namespace Session

/-- `Put`: store a value in the session data. -/
def Put (s : Session α) (key : String) (value : α) : Session α :=
  { s with Data := fun k => if k = key then some value else s.Data k }

/-- `Get`: retrieve a value from the session data. -/
def Get (s : Session α) (key : String) : Option α :=
  s.Data key

/-- `PutFlash`: set (overwrite) the pending flash message of a category. -/
def PutFlash (s : Session α) (key message : String) : Session α :=
  { s with Flashes := fun k => if k = key then some message else s.Flashes k }

/-- `GetFlash`: read the pending flash message of a category and, when one
is present, delete it; returns the Go `(msg, ok)` pair together with the
updated session. -/
def GetFlash (s : Session α) (key : String) : Option String × Session α :=
  match s.Flashes key with
  | some msg =>
      (some msg, { s with Flashes := fun k => if k = key then none else s.Flashes k })
  | none => (none, s)

end Session

/-- `Socket` from `builder.go`: connection id, component id, session,
assigns, and the (never written) `previousHTML` field. -/
structure Socket (α : Type) where
  ID : String
  ComponentID : String
  session : Session α
  Assigns : String → Option α
  previousHTML : String

/-- `NewSocket` (the random component id is a parameter here). -/
def NewSocket (α : Type) (id componentID : String) : Socket α :=
  { ID := id, ComponentID := componentID, session := NewSession α,
    Assigns := fun _ => none, previousHTML := "" }

namespace Socket

/-- `Socket.PutFlash` delegates to the session. -/
def PutFlash (s : Socket α) (key message : String) : Socket α :=
  { s with session := s.session.PutFlash key message }

/-- `Socket.GetFlash` delegates to the session. -/
def GetFlash (s : Socket α) (key : String) : Option String × Socket α :=
  let (msg, sess) := s.session.GetFlash key
  (msg, { s with session := sess })

end Socket

/-! ## The WebSocket message loop (`liveview/socket_handler.go`) -/

/-- An inbound wire message (`Message` in `socket_handler.go`):
`{event, payload}`. -/
structure Message (α : Type) where
  event : String
  payload : List (String × α)

/-- The `data` object of an outbound `{type:"render", data:{...}}` message:
the keys this server can put into the `map[string]interface{}` are `html`
(full markup), `diff` (a patch tree — understood by the client, see
`applyDiff`) and `flash`. -/
structure OutData where
  html : Option String
  diff : Option Diff
  flash : Option (String × String)
deriving DecidableEq, Repr

/-- The fixed category scan order of `addFlashToData`
(`[]string{"success", "error", "info", "warning"}`). -/
def flashTypes : List String := ["success", "error", "info", "warning"]

/-- The scanning loop of `addFlashToData`: call `GetFlash` on each category
in order and stop at the first that has a pending message (`break`),
threading the socket (whose flash map the successful `GetFlash` has
cleared). -/
def scanFlash (α : Type) : List String → Socket α → Option (String × String) × Socket α
  | [], sock => (none, sock)
  | t :: ts, sock =>
      match sock.GetFlash t with
      | (some msg, sock') => (some (t, msg), sock')
      | (none, sock') => scanFlash α ts sock'

/-- `addFlashToData` from `socket_handler.go`: scan the four known flash
categories in order and attach the first pending message (as
`{type, message}`) to the outbound data, clearing it from the socket; at
most one flash is attached per message. -/
def addFlashToData (sock : Socket α) (data : OutData) : OutData × Socket α :=
  match scanFlash α flashTypes sock with
  | (some tm, sock') => ({ data with flash := some tm }, sock')
  | (none, sock') => (data, sock')

/-- `toTitle` from the event router source: upper-case the first character.
(Go upper-cases the first byte; event names are ASCII.) -/
def toTitle (s : String) : String :=
  match s.toList with
  | [] => ""
  | c :: cs => String.mk (c.toUpper :: cs)

/-- A handler callable: receives the payload and the socket, mutates the
socket and optionally returns an error (`Option String` is the Go
`error`). -/
abbrev MHandler (α : Type) := List (String × α) → Socket α → Socket α × Option String

/-- The reflection-visible surface of a component value, plus its optional
interfaces: `methods` models the set of `Handle*` methods reachable by
`reflect.Value.MethodByName`; `eventHandler` is present exactly when the
component also implements the catch-all `EventHandler` interface
(`HandleEvent(event, payload, socket) error`); `render` models
`Component.Render` (`none` = render error). -/
structure MComp (α : Type) where
  methods : List (String × MHandler α)
  eventHandler : Option (String → MHandler α)
  render : Socket α → Option String

/-- `RouteEvent` from the event router source: derive the method name
`"Handle" + toTitle(event)`, look it up on the component instance, and call
it; a missing method yields the unknown-event error, and an error returned
by the handler is passed through. -/
def RouteEvent (comp : MComp α) (event : String) (payload : List (String × α))
    (socket : Socket α) : Socket α × Option String :=
  let methodName := "Handle" ++ toTitle event
  match comp.methods.lookup methodName with
  | none =>
      (socket,
       some ("no handler found for event: " ++ event ++
             " (expected method: " ++ methodName ++ ")"))
  | some h => h payload socket

/-- The outcome of handling one inbound message in the `HandleWebSocket`
loop: which dispatch paths ran, what (if anything) was sent, the logged
error (if any), and the socket afterwards. -/
structure StepResult (α : Type) where
  invokedConv : Bool
  invokedFallback : Bool
  sent : Option OutData
  loggedError : Option String
  sock : Socket α

/-- Whether this loop iteration terminates the connection loop: only a
failed send does (`break` on `sendMessage` error); handler errors, unknown
events and render errors all `continue`. -/
def StepResult.loopBreaks (r : StepResult α) (sendOk : Bool) : Bool :=
  r.sent.isSome && !sendOk

/-- The re-render-and-send tail of the loop (`HandleWebSocket`, after a
successful dispatch): render, on render error log and continue; otherwise
build `renderData := {"html": html}` — the full markup, with no `diff`
key — attach a pending flash, and send. -/
def renderAndSend (comp : MComp α) (conv fb : Bool) (sock : Socket α) : StepResult α :=
  match comp.render sock with
  | none =>
      { invokedConv := conv, invokedFallback := fb, sent := none,
        loggedError := some "Render error", sock := sock }
  | some html =>
      let renderData : OutData := { html := some html, diff := none, flash := none }
      let (data, sock') := addFlashToData sock renderData
      { invokedConv := conv, invokedFallback := fb, sent := some data,
        loggedError := none, sock := sock' }

/-- One iteration of the `HandleWebSocket` event loop on an inbound message:
try `RouteEvent`; when it returns an error, fall back to the `EventHandler`
interface when the component implements it (logging and continuing when
that also errors), otherwise log the routing error and continue; after a
successful dispatch, re-render and send the full markup. -/
def handleMessage (comp : MComp α) (sock : Socket α) (msg : Message α) : StepResult α :=
  let conv := (comp.methods.lookup ("Handle" ++ toTitle msg.event)).isSome
  match RouteEvent comp msg.event msg.payload sock with
  | (sock1, some err) =>
      match comp.eventHandler with
      | some hf =>
          match hf msg.event msg.payload sock1 with
          | (sock2, some err2) =>
              { invokedConv := conv, invokedFallback := true, sent := none,
                loggedError := some err2, sock := sock2 }
          | (sock2, none) => renderAndSend comp conv true sock2
      | none =>
          { invokedConv := conv, invokedFallback := false, sent := none,
            loggedError := some err, sock := sock1 }
  | (sock1, none) => renderAndSend comp conv false sock1

/-! ## Client focus / pending-input protection (`liveview.js`)

The typing-protection state of one form control, as the client tracks it:
`focused` is `this.focusedInput === control`, `pending` is
`this.pendingInputs.has(control)`.  `morphControl` is the value-handling
part of `morphdom`'s form-control branch (run whenever a server update
reaches the control, whether through `applyNodeChanges`'s form-control `"s"`
case or through a full-markup `patch`); `focusoutControl` is the `focusout`
listener of `setupFocusTracking`; `inputControl` is the `input` listener
(user typing). -/

/-- The client-side state of one `input`/`textarea`/`select` control. -/
structure ControlState where
  typ : String
  value : String
  checked : Bool
  focused : Bool
  pending : Bool
deriving DecidableEq, Repr

/-- The three-way value rule of `morphdom` for a form control, given the
server-provided (to-node) value and checked state:
focused and pending → leave value and checked alone (only the cursor is
restored); focused without pending → apply the server value (checked for
checkbox/radio), preserving the selection; not focused → apply the server
value and clear the stale pending marker. -/
def morphControl (st : ControlState) (toValue : String) (toChecked : Bool) :
    ControlState :=
  if st.focused && st.pending then
    st
  else if st.focused && !st.pending then
    if st.typ = "checkbox" || st.typ = "radio" then { st with checked := toChecked }
    else { st with value := toValue }
  else
    if st.typ = "checkbox" || st.typ = "radio" then
      { st with checked := toChecked, pending := false }
    else
      { st with value := toValue, pending := false }

/-- The `focusout` listener: when the focused control blurs, its pending
marker and recorded input state are dropped and it stops being the focused
input. -/
def focusoutControl (st : ControlState) : ControlState :=
  if st.focused then { st with focused := false, pending := false } else st

/-- The `input` listener: typing records the control's state and marks it
pending. -/
def inputControl (st : ControlState) (newValue : String) : ControlState :=
  { st with value := newValue, pending := true }

/-! ## Auxiliary definitions used by the theorems -/

/-- Whether a patch value is an attribute add/remove/update leaf. -/
def isAttrLeaf : DiffVal → Bool
  | .attr _ => true
  | _ => false

/-- The first of the four known flash categories with a pending message. -/
def firstPending (f : String → Option String) : Option String :=
  flashTypes.find? fun t => (f t).isSome

/-- A model instance of the server-side markup parse
(`html.ParseFragment` + `unwrapFragment`: the first top-level node of the
fragment), used to evaluate `ComputeDiff` on concrete strings. -/
def specParse (s : String) : Option HNode :=
  (parseHTML s).head?

/-- Concrete fixture: a component whose `HandleInc` method succeeds and
whose render yields `<div>2</div>`. -/
def compTick : MComp Unit :=
  { methods := [("HandleInc", fun _ s => (s, none))],
    eventHandler := none,
    render := fun _ => some "<div>2</div>" }

/-- Concrete fixture: a freshly mounted socket. -/
def sockTick : Socket Unit := NewSocket Unit "s1" "c1"

/-- Concrete fixture: a component whose `HandleFoo` method returns an error
and that also implements the catch-all `EventHandler` interface (whose
handler succeeds). -/
def compFallback : MComp Unit :=
  { methods := [("HandleFoo", fun _ s => (s, some "boom"))],
    eventHandler := some (fun _ _ s => (s, none)),
    render := fun _ => some "<div>ok</div>" }

/-- Concrete fixture: a component with no `Handle*` methods and no
catch-all. -/
def compBare : MComp Unit :=
  { methods := [], eventHandler := none, render := fun _ => some "<div></div>" }

/-- Concrete old render for the C2 counterexamples: a `div` holding plain
text. -/
def cexOldText : HNode := HNode.elem "div" [] [HNode.text "hello"]

/-- Concrete new render: the text child became a `span` element. -/
def cexNewElem : HNode := HNode.elem "div" [] [HNode.elem "span" [] [HNode.text "x"]]

/-- Concrete old render: a `select` with one option. -/
def cexOldSelect : HNode :=
  HNode.elem "select" [] [HNode.elem "option" [] [HNode.text "a"]]

/-- Concrete new render: the same `select` with a second option. -/
def cexNewSelect : HNode :=
  HNode.elem "select" []
    [HNode.elem "option" [] [HNode.text "a"], HNode.elem "option" [] [HNode.text "b"]]

/-! # Theorems -/

/-- C9: `ComputeDiff(R, R)` returns an empty diff for every markup string
`R` (and every behaviour of the markup parser): identical inputs
short-circuit before any parsing to the `nil` diff, which carries no patch
entries. -/
theorem computeDiff_self_empty (parse : String → Option HNode) (R : String) :
    ComputeDiff parse R R = [] := by
  simp [ComputeDiff]

/-- C8 (amended-shape check is not needed; the claim holds as stated):
for two element nodes at the same position with equal type, tag and
attribute set but differing child counts, `diffNodes` emits exactly one
full-subtree replacement leaf at that position, carrying the new node
serialized back to markup — and hence no per-child patches beneath it. -/
theorem diffNodes_childCount_replacement (t : String)
    (a1 a2 : List (String × String)) (c1 c2 : List HNode) (i : Nat)
    (hattrs : sameAttributes a1 a2 = true) (hlen : c1.length ≠ c2.length) :
    diffNodes (HNode.elem t a1 c1) (HNode.elem t a2 c2) i
      = [(i, DiffVal.s (renderNode (HNode.elem t a2 c2)))] := by
  simp [diffNodes, HNode.isElem, HNode.tagOf, hattrs, hlen]

/-- Witness for C8 at a concrete input: a 5-child list with the third item
removed yields a replacement at the parent position. -/
theorem diffNodes_childCount_replacement_witness :
    diffNodes
      (HNode.elem "ul" []
        [HNode.elem "li" [] [], HNode.elem "li" [] [], HNode.elem "li" [] [],
         HNode.elem "li" [] [], HNode.elem "li" [] []])
      (HNode.elem "ul" []
        [HNode.elem "li" [] [], HNode.elem "li" [] [],
         HNode.elem "li" [] [], HNode.elem "li" [] []]) 0
      = [(0, DiffVal.s (renderNode (HNode.elem "ul" []
          [HNode.elem "li" [] [], HNode.elem "li" [] [],
           HNode.elem "li" [] [], HNode.elem "li" [] []])))] :=
  diffNodes_childCount_replacement "ul" [] []
    [HNode.elem "li" [] [], HNode.elem "li" [] [], HNode.elem "li" [] [],
     HNode.elem "li" [] [], HNode.elem "li" [] []]
    [HNode.elem "li" [] [], HNode.elem "li" [] [],
     HNode.elem "li" [] [], HNode.elem "li" [] []] 0 (by decide) (by decide)

/-- C3, counterexample: for two `div` nodes differing only in the value of
their `class` attribute, the diff engine emits a single full-subtree
replacement leaf (the new node serialized back to markup), and no attribute
add/remove/update leaf appears anywhere in the patch — contradicting the
claim that exactly the changed attributes are patched and the children then
descended into. -/
theorem diffNodes_attr_change_cex :
    diffNodes (HNode.elem "div" [("class", "a")] [HNode.text "t"])
        (HNode.elem "div" [("class", "b")] [HNode.text "t"]) 0
      = [(0, DiffVal.s "<div class=\"b\">t</div>")] ∧
    (diffNodes (HNode.elem "div" [("class", "a")] [HNode.text "t"])
        (HNode.elem "div" [("class", "b")] [HNode.text "t"]) 0).all
      (fun e => !isAttrLeaf e.2) = true := by
  constructor
  · rfl
  · rfl

/-- C3, amended: for two element nodes at the same position with equal tag
but differing attribute sets, `diffNodes` emits a single full-subtree
replacement leaf at that position (the new node serialized back to markup)
and does not descend into the children (the code comment reads "For now,
replace the whole node if attributes differ"). -/
theorem diffNodes_attrs_differ_replacement (t : String)
    (a1 a2 : List (String × String)) (c1 c2 : List HNode) (i : Nat)
    (hattrs : sameAttributes a1 a2 = false) :
    diffNodes (HNode.elem t a1 c1) (HNode.elem t a2 c2) i
      = [(i, DiffVal.s (renderNode (HNode.elem t a2 c2)))] := by
  simp [diffNodes, HNode.isElem, HNode.tagOf, hattrs]

/-- Witness for the amended C3 at a concrete input. -/
theorem diffNodes_attrs_differ_replacement_witness :
    diffNodes (HNode.elem "p" [("id", "1")] [HNode.text "z"])
        (HNode.elem "p" [("id", "2")] [HNode.text "z"]) 3
      = [(3, DiffVal.s (renderNode (HNode.elem "p" [("id", "2")] [HNode.text "z"])))] :=
  diffNodes_attrs_differ_replacement "p" [("id", "1")] [("id", "2")]
    [HNode.text "z"] [HNode.text "z"] 3 (by decide)

/-- C4: while a form control is focused and marked pending, a server update
merged through `morphdom`'s form-control branch leaves its value (and
checked state) unchanged and keeps it pending; after the control loses focus
(the `focusout` listener clears the focused and pending markers), a
subsequent server update sets the control's value (for checkbox/radio
controls the corresponding observable state is `checked`, which is likewise
set). -/
theorem morphControl_focus_protection (st : ControlState)
    (tv tv2 : String) (tc tc2 : Bool)
    (hf : st.focused = true) (hp : st.pending = true) :
    morphControl st tv tc = st ∧
    (st.typ ≠ "checkbox" → st.typ ≠ "radio" →
      (morphControl (focusoutControl (morphControl st tv tc)) tv2 tc2).value = tv2) ∧
    ((st.typ = "checkbox" ∨ st.typ = "radio") →
      (morphControl (focusoutControl (morphControl st tv tc)) tv2 tc2).checked = tc2) := by
  have h1 : morphControl st tv tc = st := by
    simp [morphControl, hf, hp]
  have h2 : focusoutControl st = { st with focused := false, pending := false } := by
    simp [focusoutControl, hf]
  refine ⟨h1, ?_, ?_⟩
  · intro hcb hrd
    rw [h1, h2]
    simp [morphControl, hcb, hrd]
  · intro hty
    rw [h1, h2]
    rcases hty with hty | hty <;> simp [morphControl, hty]

/-- Witness for C4 at a concrete control state. -/
theorem morphControl_focus_protection_witness :
    morphControl
        { typ := "text", value := "abc", checked := false,
          focused := true, pending := true } "srv" false
      = { typ := "text", value := "abc", checked := false,
          focused := true, pending := true } ∧
    (morphControl (focusoutControl (morphControl
        { typ := "text", value := "abc", checked := false,
          focused := true, pending := true } "srv" false)) "srv2" false).value
      = "srv2" := by
  have h := morphControl_focus_protection
    { typ := "text", value := "abc", checked := false,
      focused := true, pending := true } "srv" "srv2" false false rfl rfl
  exact ⟨h.1, h.2.1 (by decide) (by decide)⟩

/-- C5: when an inbound event resolves to neither a convention-based
`Handle*` method nor a catch-all `EventHandler`, the step logs the
unknown-event error from `RouteEvent`, invokes no handler, sends no render
message, leaves the socket untouched, and does not terminate the connection
loop (so the next inbound message is still processed). -/
theorem unknown_event_step (α : Type) (comp : MComp α) (sock : Socket α)
    (msg : Message α)
    (hconv : comp.methods.lookup ("Handle" ++ toTitle msg.event) = none)
    (hfb : comp.eventHandler = none) :
    (handleMessage comp sock msg).sent = none ∧
    (handleMessage comp sock msg).invokedConv = false ∧
    (handleMessage comp sock msg).invokedFallback = false ∧
    (handleMessage comp sock msg).loggedError
      = some ("no handler found for event: " ++ msg.event ++
              " (expected method: " ++ ("Handle" ++ toTitle msg.event) ++ ")") ∧
    (handleMessage comp sock msg).sock = sock ∧
    (∀ sendOk, (handleMessage comp sock msg).loopBreaks sendOk = false) := by
  simp [handleMessage, RouteEvent, hconv, hfb, StepResult.loopBreaks]

/-- Witness for C5: a component with no handlers receives event
`"nonexistent"`. -/
theorem unknown_event_step_witness :
    (handleMessage compBare sockTick { event := "nonexistent", payload := [] }).sent
      = none ∧
    (∀ sendOk,
      (handleMessage compBare sockTick
        { event := "nonexistent", payload := [] }).loopBreaks sendOk = false) := by
  have h := unknown_event_step Unit compBare sockTick
    { event := "nonexistent", payload := [] } rfl rfl
  exact ⟨h.1, h.2.2.2.2.2⟩

/-- C6, counterexample: event `"foo"` resolves to the existing convention
handler `HandleFoo`; that handler returns an error, and because the loop
cannot distinguish "no such method" from "handler failed" in `RouteEvent`'s
error, it then also invokes the catch-all `EventHandler` for the same event
— contradicting the claim that the fallback is not invoked when the
convention handler exists, "in particular not when the convention-based
handler returns an error". -/
theorem conv_error_invokes_fallback_cex :
    (handleMessage compFallback sockTick { event := "foo", payload := [] }).invokedConv
      = true ∧
    (handleMessage compFallback sockTick { event := "foo", payload := [] }).invokedFallback
      = true := by
  constructor <;> rfl

/-- Helper: the dispatch-path flags recorded by `renderAndSend` are exactly
the ones it is given. -/
theorem renderAndSend_flags (α : Type) (comp : MComp α) (conv fb : Bool)
    (sock : Socket α) :
    (renderAndSend comp conv fb sock).invokedConv = conv ∧
    (renderAndSend comp conv fb sock).invokedFallback = fb := by
  unfold renderAndSend
  cases comp.render sock <;> simp

/-- C6, amended: when the convention-based `Handle*` method exists it is the
handler invoked, and the catch-all entry point is not invoked as long as the
convention handler succeeds; when the convention handler returns an error,
the loop falls back to the catch-all `EventHandler` when the component
implements one. -/
theorem conv_handler_priority (α : Type) (comp : MComp α) (sock : Socket α)
    (msg : Message α) (h : MHandler α)
    (hm : comp.methods.lookup ("Handle" ++ toTitle msg.event) = some h)
    (hok : (h msg.payload sock).2 = none) :
    (handleMessage comp sock msg).invokedConv = true ∧
    (handleMessage comp sock msg).invokedFallback = false := by
  have hroute : RouteEvent comp msg.event msg.payload sock
      = ((h msg.payload sock).1, none) := by
    simp [RouteEvent, hm]
    rw [← hok]
  unfold handleMessage
  rw [hroute, hm]
  exact renderAndSend_flags α comp _ false (h msg.payload sock).1

/-- Witness for the amended C6: a successful `HandleInc` convention handler
is invoked without the fallback. -/
theorem conv_handler_priority_witness :
    (handleMessage compTick sockTick { event := "inc", payload := [] }).invokedConv
      = true ∧
    (handleMessage compTick sockTick { event := "inc", payload := [] }).invokedFallback
      = false :=
  conv_handler_priority Unit compTick sockTick { event := "inc", payload := [] }
    (fun _ s => (s, none)) rfl rfl

/-- C7: putting a flash message and then taking it returns the message and
clears exactly that category — every other category's pending message and
all session data are untouched — so a second take comes back absent; and
taking a flash from a category with no pending message returns absent and
leaves the session unchanged. -/
theorem flash_put_take (α : Type) (s : Session α) (c m : String) :
    ((s.PutFlash c m).GetFlash c).1 = some m ∧
    ((s.PutFlash c m).GetFlash c).2.Flashes c = none ∧
    (∀ d, d ≠ c →
      ((s.PutFlash c m).GetFlash c).2.Flashes d = (s.PutFlash c m).Flashes d) ∧
    ((s.PutFlash c m).GetFlash c).2.Data = (s.PutFlash c m).Data ∧
    (((s.PutFlash c m).GetFlash c).2.GetFlash c).1 = none ∧
    (∀ k, s.Flashes k = none → s.GetFlash k = (none, s)) := by
  refine ⟨?_, ?_, ?_, ?_, ?_, ?_⟩
  · simp [Session.PutFlash, Session.GetFlash]
  · simp [Session.PutFlash, Session.GetFlash]
  · intro d hd
    simp [Session.PutFlash, Session.GetFlash, hd]
  · simp [Session.PutFlash, Session.GetFlash]
  · simp [Session.PutFlash, Session.GetFlash]
  · intro k hk
    simp [Session.GetFlash, hk]

/-- Witness for C7 at a concrete session and category. -/
theorem flash_put_take_witness :
    (((NewSession Unit).PutFlash "success" "saved").GetFlash "success").1
      = some "saved" ∧
    ((((NewSession Unit).PutFlash "success" "saved").GetFlash "success").2.GetFlash
        "success").1 = none := by
  have h := flash_put_take Unit (NewSession Unit) "success" "saved"
  exact ⟨h.1, h.2.2.2.2.1⟩

/-- Helper: behaviour of the `addFlashToData` scan loop over any category
list — a miss on every category returns everything unchanged; otherwise the
first pending category (and only it) is taken and cleared. -/
theorem scanFlash_spec (α : Type) (l : List String) (sock : Socket α) :
    (l.find? (fun t => (sock.session.Flashes t).isSome) = none →
        scanFlash α l sock = (none, sock)) ∧
    (∀ c, l.find? (fun t => (sock.session.Flashes t).isSome) = some c →
        ∃ m, sock.session.Flashes c = some m ∧
          scanFlash α l sock = (some (c, m),
            { sock with session :=
                { sock.session with
                    Flashes := fun k => if k = c then none else sock.session.Flashes k } })) := by
  induction l with
  | nil => exact ⟨fun _ => rfl, fun c hc => by simp at hc⟩
  | cons t ts ih =>
      rcases h : sock.session.Flashes t with _ | m
      · constructor
        · intro hnone
          rw [List.find?_cons_of_neg] at hnone
          · have := ih.1 hnone
            simpa [scanFlash, Socket.GetFlash, Session.GetFlash, h] using this
          · simp [h]
        · intro c hc
          rw [List.find?_cons_of_neg] at hc
          · obtain ⟨m, hm, hs⟩ := ih.2 c hc
            exact ⟨m, hm, by simpa [scanFlash, Socket.GetFlash, Session.GetFlash, h] using hs⟩
          · simp [h]
      · constructor
        · intro hnone
          rw [List.find?_cons_of_pos] at hnone
          · exact absurd hnone (by simp)
          · simp [h]
        · intro c hc
          rw [List.find?_cons_of_pos] at hc
          · have hct : c = t := by injection hc with h'; exact h'.symm
            subst hct
            refine ⟨m, h, ?_⟩
            simp [scanFlash, Socket.GetFlash, Session.GetFlash, h]
          · simp [h]

/-- C10: the outbound-message flash scan inspects exactly the four
categories success, error, info, warning in that fixed order; when none of
the four is pending the data and socket are returned unchanged (in
particular a flash stored under any other category name is never attached,
so it is never delivered); when some are pending, only the first in that
order is attached (as the single `flash` entry of the data) and cleared,
while every other category's stored message — later pending ones included —
is left in place, as is all session data. -/
theorem addFlashToData_single_ordered (α : Type) (sock : Socket α) (d : OutData) :
    (firstPending sock.session.Flashes = none →
        addFlashToData sock d = (d, sock)) ∧
    (∀ c, firstPending sock.session.Flashes = some c →
        c ∈ flashTypes ∧
        ∃ m, sock.session.Flashes c = some m ∧
          (addFlashToData sock d).1 = { d with flash := some (c, m) } ∧
          (addFlashToData sock d).2.session.Flashes c = none ∧
          (∀ e, e ≠ c →
            (addFlashToData sock d).2.session.Flashes e = sock.session.Flashes e) ∧
          (addFlashToData sock d).2.session.Data = sock.session.Data) := by
  have hs := scanFlash_spec α flashTypes sock
  constructor
  · intro hnone
    have := hs.1 hnone
    simp [addFlashToData, this]
  · intro c hc
    refine ⟨List.mem_of_find?_eq_some hc, ?_⟩
    obtain ⟨m, hm, hrun⟩ := hs.2 c hc
    refine ⟨m, hm, ?_, ?_, ?_, ?_⟩
    · simp [addFlashToData, hrun]
    · simp [addFlashToData, hrun]
    · intro e he
      simp [addFlashToData, hrun, he]
    · simp [addFlashToData, hrun]

/-- Witness for C10: with both `error` and `warning` pending, only `error`
(the earlier category in the fixed order) is attached and cleared, and the
`warning` message stays stored. -/
theorem addFlashToData_single_ordered_witness :
    let sock :=
      ((NewSocket Unit "s" "c").PutFlash "warning" "later").PutFlash "error" "bad"
    (addFlashToData sock
        { html := some "<div></div>", diff := none, flash := none }).1.flash
      = some ("error", "bad") ∧
    (addFlashToData sock
        { html := some "<div></div>", diff := none, flash := none }).2.session.Flashes
        "warning" = some "later" := by
  intro sock
  have h := (addFlashToData_single_ordered Unit sock
    { html := some "<div></div>", diff := none, flash := none }).2 "error" (by rfl)
  obtain ⟨-, m, hm, hdata, -, hothers, -⟩ := h
  have hm' : m = "bad" := Option.some.inj (hm.symm.trans rfl)
  constructor
  · rw [hdata, hm']
  · rw [hothers "warning" (by decide)]
    rfl

/-- C1: the post-event send path never carries a diff.  For every component,
socket and dispatch outcome, a message the re-render tail sends has
`data.diff` absent and `data.html` present (the full markup) — the loop
builds `renderData := {"html": html}` on every tick and `ComputeDiff` has no
caller — even though, at the concrete failing input (previous render
`<div>1</div>`, new render `<div>2</div>` after the successfully handled
event `inc`), structural parsing succeeds and the structural diff is
non-empty, so the claimed behaviour would have sent
`{"diff": {"0": {"children": {"0": {"s": ["2"]}}}}}` instead. -/
theorem tick_sends_full_html_never_diff :
    (∀ (α : Type) (comp : MComp α) (conv fb : Bool) (sock : Socket α) (d : OutData),
        (renderAndSend comp conv fb sock).sent = some d →
        d.diff = none ∧ d.html ≠ none) ∧
    (handleMessage compTick sockTick { event := "inc", payload := [] }).sent
      = some { html := some "<div>2</div>", diff := none, flash := none } ∧
    ComputeDiff specParse "<div>1</div>" "<div>2</div>"
      = [(0, DiffVal.children [(0, DiffVal.s "2")])] := by
  refine ⟨?_, rfl, by decide⟩
  intro α comp conv fb sock d hd
  unfold renderAndSend at hd
  rcases hr : comp.render sock with _ | html
  · rw [hr] at hd; simp at hd
  · rw [hr] at hd
    simp only [Option.some.injEq] at hd
    have hs := scanFlash_spec α flashTypes sock
    rcases hfp : flashTypes.find? (fun t => (sock.session.Flashes t).isSome) with _ | c
    · have hrun := hs.1 hfp
      rw [← hd]
      simp [addFlashToData, hrun]
    · obtain ⟨m, -, hrun⟩ := hs.2 c hfp
      rw [← hd]
      simp [addFlashToData, hrun]

/-- Witness for C1: the general part of the theorem applied to the concrete
tick message. -/
theorem tick_sends_full_html_never_diff_witness :
    ({ html := some "<div>2</div>", diff := none, flash := none } : OutData).diff
        = none ∧
    ({ html := some "<div>2</div>", diff := none, flash := none } : OutData).html
        ≠ none :=
  tick_sends_full_html_never_diff.1 Unit compTick false false sockTick
    { html := some "<div>2</div>", diff := none, flash := none } rfl

/-! ## Helper lemmas for the diff/apply round trip (C2) -/

/-- Helper: a `lookup` hit in the first part of an appended association
list survives the append. -/
theorem lookup_append_left {α β : Type} [BEq α] (l1 l2 : List (α × β)) (k : α) (v : β)
    (h : l1.lookup k = some v) : (l1 ++ l2).lookup k = some v := by
  induction l1 with
  | nil => simp [List.lookup] at h
  | cons p rest ih =>
      rw [List.cons_append, List.lookup]
      rw [List.lookup] at h
      cases hk : k == p.1 with
      | true => rw [hk] at h; exact h
      | false => rw [hk] at h; exact ih h

/-- Helper: a `lookup` whose key misses every key of the first part of an
append continues in the second part. -/
theorem lookup_append_of_not_mem (l1 l2 : List (String × String)) (k : String)
    (h : k ∉ l1.map Prod.fst) : (l1 ++ l2).lookup k = l2.lookup k := by
  induction l1 with
  | nil => rfl
  | cons p rest ih =>
      rw [List.map_cons, List.mem_cons] at h
      push_neg at h
      rw [List.cons_append, List.lookup]
      have : (k == p.1) = false := by
        simp [h.1]
      rw [this]
      exact ih h.2

/-- Helper: with duplicate-free keys, the last-wins attribute map finds each
attribute's own value. -/
theorem lastLookup_self (a : List (String × String))
    (h : (a.map Prod.fst).Nodup) : ∀ p ∈ a, lastLookup a p.1 = some p.2 := by
  induction a with
  | nil => intro p hp; simp at hp
  | cons q rest ih =>
      rw [List.map_cons, List.nodup_cons] at h
      intro p hp
      rcases List.mem_cons.mp hp with hpq | hprest
      · subst hpq
        unfold lastLookup
        rw [List.reverse_cons]
        rw [lookup_append_of_not_mem]
        · simp [List.lookup]
        · simpa using h.1
      · have := ih h.2 p hprest
        unfold lastLookup at this ⊢
        rw [List.reverse_cons]
        exact lookup_append_left _ _ _ _ this

/-- Helper: `sameAttributes` is reflexive on a duplicate-free attribute
list. -/
theorem sameAttributes_refl (a : List (String × String))
    (h : (a.map Prod.fst).Nodup) : sameAttributes a a = true := by
  unfold sameAttributes
  rw [Bool.and_eq_true]
  refine ⟨by simp, ?_⟩
  rw [List.all_eq_true]
  intro p hp
  rw [lastLookup_self a h p hp]
  simp

/-- Helper: every node has positive size. -/
theorem sizeOf_hnode_pos (n : HNode) : 0 < sizeOf n := by
  cases n <;> simp_arith

/-- Helper: observable structural equality is reflexive on trees whose
attribute keys are duplicate-free. -/
theorem structEq_refl_all : ∀ N : Nat,
    (∀ n : HNode, sizeOf n ≤ N → wfAttrs n = true → structEq n n = true) ∧
    (∀ l : List HNode, sizeOf l ≤ N → wfAttrsList l = true →
      structEqList l l = true) := by
  intro N
  induction N with
  | zero =>
      constructor
      · intro n hn
        exact absurd hn (by simpa using (sizeOf_hnode_pos n).ne')
      · intro l hl _
        cases l with
        | nil => rfl
        | cons x xs => simp_arith at hl
  | succ N ih =>
      constructor
      · intro n hn hw
        cases n with
        | text d => simp [structEq]
        | elem t a cs =>
            unfold wfAttrs at hw
            rw [Bool.and_eq_true] at hw
            unfold structEq
            rw [Bool.and_eq_true, Bool.and_eq_true]
            refine ⟨⟨by simp, sameAttributes_refl a (by simpa using hw.1)⟩, ?_⟩
            refine ih.2 cs ?_ hw.2
            have : sizeOf cs < sizeOf (HNode.elem t a cs) := by simp_arith
            omega
      · intro l hl hw
        cases l with
        | nil => rfl
        | cons x xs =>
            unfold wfAttrsList at hw
            rw [Bool.and_eq_true] at hw
            unfold structEqList
            rw [Bool.and_eq_true]
            have hx : sizeOf x < sizeOf (x :: xs) := by simp_arith
            have hxs : sizeOf xs < sizeOf (x :: xs) := by simp_arith
            exact ⟨ih.1 x (by omega) hw.1, ih.2 xs (by omega) hw.2⟩

/-- Helper: structural-equality reflexivity, packaged. -/
theorem structEq_refl (n : HNode) (hw : wfAttrs n = true) : structEq n n = true :=
  (structEq_refl_all (sizeOf n)).1 n le_rfl hw

/-- Helper: a list structurally equal to a singleton is a singleton. -/
theorem structEqList_singleton (xs : List HNode) (n : HNode)
    (h : structEqList xs [n] = true) : ∃ r, xs = [r] ∧ structEq r n = true := by
  cases xs with
  | nil => simp [structEqList] at h
  | cons r rest =>
      cases rest with
      | nil =>
          unfold structEqList at h
          rw [Bool.and_eq_true] at h
          exact ⟨r, rfl, h.1⟩
      | cons r2 rest2 =>
          unfold structEqList at h
          rw [Bool.and_eq_true] at h
          exact absurd h.2 (by simp [structEqList])

/-- Helper: `applyDiffToNode` walks an appended entry list in two stages. -/
theorem applyDiffToNode_append (es1 : List (Nat × DiffVal)) (es2 : List (Nat × DiffVal))
    (node : HNode) :
    applyDiffToNode node (es1 ++ es2)
      = applyDiffToNode (applyDiffToNode node es1) es2 := by
  induction es1 generalizing node with
  | nil => rfl
  | cons e rest ih =>
      obtain ⟨i, v⟩ := e
      rw [List.cons_append]
      simp only [applyDiffToNode]
      exact ih _

/-- Helper: indexing just past a prefix finds the head of the suffix. -/
theorem get?_append_cons (pre : List HNode) (o : HNode) (os : List HNode) :
    (pre ++ o :: os).get? pre.length = some o := by
  induction pre with
  | nil => rfl
  | cons p rest ih => simpa using ih

/-- Helper: splicing just past a prefix replaces the head of the suffix. -/
theorem spliceAt_append_cons (pre : List HNode) (o : HNode) (os rs : List HNode) :
    spliceAt (pre ++ o :: os) pre.length rs = pre ++ (rs ++ os) := by
  induction pre with
  | nil => rfl
  | cons p rest ih =>
      rw [List.cons_append, List.length_cons]
      unfold spliceAt
      rw [ih, List.cons_append]

/-- Helper: a patch produced by `diffNodes` at position `i` is empty or a
single entry keyed `i`. -/
theorem diffNodes_shape (o n : HNode) (i : Nat) :
    diffNodes o n i = [] ∨ ∃ v, diffNodes o n i = [(i, v)] := by
  cases o with
  | text od =>
      cases n with
      | text nd =>
          by_cases h : od = nd
          · left; simp [diffNodes, h]
          · right; exact ⟨DiffVal.s nd, by simp [diffNodes, h]⟩
      | elem t2 a2 c2 =>
          right
          exact ⟨DiffVal.s (renderNode (HNode.elem t2 a2 c2)),
            by simp [diffNodes, HNode.isElem]⟩
  | elem t1 a1 c1 =>
      cases n with
      | text nd =>
          right
          exact ⟨DiffVal.s (renderNode (HNode.text nd)),
            by simp [diffNodes, HNode.isElem]⟩
      | elem t2 a2 c2 =>
          by_cases ht : t1 = t2
          · by_cases ha : sameAttributes a1 a2 = true
            · by_cases hl : c1.length = c2.length
              · by_cases hd : diffChildren c1 c2 0 = []
                · left
                  simp [diffNodes, HNode.isElem, HNode.tagOf, ht, ha, hl, hd]
                · right
                  exact ⟨DiffVal.children (diffChildren c1 c2 0),
                    by simp [diffNodes, HNode.isElem, HNode.tagOf, ht, ha, hl, hd]⟩
              · right
                exact ⟨DiffVal.s (renderNode (HNode.elem t2 a2 c2)),
                  by simp [diffNodes, HNode.isElem, HNode.tagOf, ht, ha, hl]⟩
            · right
              exact ⟨DiffVal.s (renderNode (HNode.elem t2 a2 c2)),
                by simp [diffNodes, HNode.isElem, HNode.tagOf, ht, ha]⟩
          · right
            exact ⟨DiffVal.s (renderNode (HNode.elem t2 a2 c2)),
              by simp [diffNodes, HNode.isElem, HNode.tagOf, ht]⟩

/-- Helper: an empty structural diff certifies observable structural
equality of the two trees (with, for the child-list version, equal list
lengths — which is exactly what `diffNodes` has checked before descending
into the children). -/
theorem diff_empty_structEq_all : ∀ N : Nat,
    (∀ o n : HNode, sizeOf o ≤ N → ∀ i, diffNodes o n i = [] →
      structEq o n = true) ∧
    (∀ c1 c2 : List HNode, sizeOf c1 ≤ N → c1.length = c2.length →
      ∀ k, diffChildren c1 c2 k = [] → structEqList c1 c2 = true) := by
  intro N
  induction N with
  | zero =>
      constructor
      · intro o n ho
        exact absurd ho (by simpa using (sizeOf_hnode_pos o).ne')
      · intro c1 c2 hc hlen k hd
        cases c1 with
        | nil => cases c2 with
          | nil => rfl
          | cons y ys => simp at hlen
        | cons x xs => simp_arith at hc
  | succ N ih =>
      constructor
      · intro o n ho i hdiff
        cases o with
        | text od =>
            cases n with
            | text nd =>
                by_cases h : od = nd
                · simp [structEq, h]
                · simp [diffNodes, h] at hdiff
            | elem t2 a2 c2 => simp [diffNodes, HNode.isElem] at hdiff
        | elem t1 a1 c1 =>
            cases n with
            | text nd => simp [diffNodes, HNode.isElem] at hdiff
            | elem t2 a2 c2 =>
                by_cases ht : t1 = t2
                · by_cases ha : sameAttributes a1 a2 = true
                  · by_cases hl : c1.length = c2.length
                    · by_cases hd : diffChildren c1 c2 0 = []
                      · unfold structEq
                        rw [Bool.and_eq_true, Bool.and_eq_true]
                        refine ⟨⟨by simp [ht], ha⟩, ?_⟩
                        refine ih.2 c1 c2 ?_ hl 0 hd
                        have : sizeOf c1 < sizeOf (HNode.elem t1 a1 c1) := by
                          simp_arith
                        omega
                      · simp [diffNodes, HNode.isElem, HNode.tagOf, ht, ha, hl, hd]
                          at hdiff
                    · simp [diffNodes, HNode.isElem, HNode.tagOf, ht, ha, hl] at hdiff
                  · simp [diffNodes, HNode.isElem, HNode.tagOf, ht, ha] at hdiff
                · simp [diffNodes, HNode.isElem, HNode.tagOf, ht] at hdiff
      · intro c1 c2 hc hlen k hd
        cases c1 with
        | nil =>
            cases c2 with
            | nil => rfl
            | cons y ys => simp at hlen
        | cons x xs =>
            cases c2 with
            | nil => simp at hlen
            | cons y ys =>
                unfold diffChildren at hd
                rw [List.append_eq_nil] at hd
                unfold structEqList
                rw [Bool.and_eq_true]
                have hx : sizeOf x < sizeOf (x :: xs) := by simp_arith
                have hxs : sizeOf xs < sizeOf (x :: xs) := by simp_arith
                refine ⟨ih.1 x y (by omega) k hd.1, ?_⟩
                refine ih.2 xs ys (by omega) ?_ (k + 1) hd.2
                simpa using hlen

/-- Helper: every node is one of its own subtrees. -/
theorem mem_subnodes_self (n : HNode) : n ∈ subnodes n := by
  cases n <;> simp [subnodes]

/-- Helper (main induction): applying a non-empty patch produced by
`diffNodes` to the old tree yields, under the no-focus client model, a
single node structurally equal to the new tree — provided the old tree
contains no form control, no matched position pairs an old text node with a
new element node, the new tree's attribute keys are duplicate-free, and
serialize-then-reparse is faithful on the new tree's subtrees.  The second
component is the corresponding statement for the children walk
(`applyDiffToNode` over `diffChildren`), for any already-patched prefix. -/
theorem diff_apply_all : ∀ N : Nat,
    (∀ o n : HNode, sizeOf o + sizeOf n ≤ N →
      noForms o = true → compat o n = true → wfAttrs n = true →
      (∀ m ∈ subnodes n, parseHTML (renderNode m) = [m]) →
      ∀ i v, diffNodes o n i = [(i, v)] →
      structEqList (applyNodeChanges o v) [n] = true) ∧
    (∀ c1 c2 : List HNode, sizeOf c1 + sizeOf c2 ≤ N →
      c1.length = c2.length →
      noFormsList c1 = true → compatList c1 c2 = true → wfAttrsList c2 = true →
      (∀ m ∈ subnodesList c2, parseHTML (renderNode m) = [m]) →
      ∀ (t : String) (a : List (String × String)) (pre : List HNode),
      ∃ res,
        applyDiffToNode (HNode.elem t a (pre ++ c1)) (diffChildren c1 c2 pre.length)
          = HNode.elem t a (pre ++ res) ∧ structEqList res c2 = true) := by
  intro N
  induction N with
  | zero =>
      constructor
      · intro o n ho
        have h1 := sizeOf_hnode_pos o
        omega
      · intro c1 c2 hc hlen _ _ _ _ t a pre
        cases c1 with
        | nil =>
            cases c2 with
            | nil => exact ⟨[], rfl, rfl⟩
            | cons y ys => simp at hlen
        | cons x xs => simp_arith at hc
  | succ N ih =>
      constructor
      · -- node case
        intro o n hsz hnf hc hw hrt i v hdiff
        cases o with
        | text od =>
            cases n with
            | text nd =>
                by_cases h : od = nd
                · simp [diffNodes, h] at hdiff
                · simp [diffNodes, h] at hdiff
                  rw [← hdiff]
                  simp [applyNodeChanges, structEqList, structEq]
            | elem t2 a2 c2 => simp [compat] at hc
        | elem t1 a1 c1 =>
            unfold noForms at hnf
            rw [Bool.and_eq_true] at hnf
            have hform : (t1 ∈ formTags) = False := by
              simp only [decide_eq_true_eq] at hnf
              simp [hnf.1]
            cases n with
            | text nd =>
                simp [diffNodes, HNode.isElem] at hdiff
                rw [← hdiff]
                have hpp := hrt (HNode.text nd) (mem_subnodes_self _)
                simp [applyNodeChanges, hform, replaceWithContent, hpp,
                  structEqList, structEq]
            | elem t2 a2 c2 =>
                have hrefl : structEq (HNode.elem t2 a2 c2) (HNode.elem t2 a2 c2)
                    = true := structEq_refl _ hw
                have hpp := hrt (HNode.elem t2 a2 c2) (mem_subnodes_self _)
                by_cases ht : t1 = t2
                · by_cases ha : sameAttributes a1 a2 = true
                  · by_cases hl : c1.length = c2.length
                    · by_cases hd : diffChildren c1 c2 0 = []
                      · simp [diffNodes, HNode.isElem, HNode.tagOf, ht, ha, hl, hd]
                          at hdiff
                      · simp [diffNodes, HNode.isElem, HNode.tagOf, ht, ha, hl, hd]
                          at hdiff
                        rw [← hdiff]
                        -- children descent
                        unfold wfAttrs at hw
                        rw [Bool.and_eq_true] at hw
                        have hcl : compatList c1 c2 = true := by
                          unfold compat at hc
                          rw [if_pos] at hc
                          · exact hc
                          · simp [ht, ha, hl]
                        have hsz1 : sizeOf c1 + sizeOf c2 ≤ N := by
                          have hx : sizeOf c1 < sizeOf (HNode.elem t1 a1 c1) := by
                            simp_arith
                          have hy : sizeOf c2 < sizeOf (HNode.elem t2 a2 c2) := by
                            simp_arith
                          omega
                        have hrt2 : ∀ m ∈ subnodesList c2,
                            parseHTML (renderNode m) = [m] := by
                          intro m hm
                          exact hrt m (by simp [subnodes, hm])
                        obtain ⟨res, heq, hres⟩ :=
                          ih.2 c1 c2 hsz1 hl hnf.2 hcl hw.2 hrt2 t1 a1 []
                        simp only [List.nil_append, List.length_nil] at heq
                        simp only [applyNodeChanges, heq]
                        unfold structEqList structEq
                        simp [ht, ha, hres, structEqList]
                    · simp [diffNodes, HNode.isElem, HNode.tagOf, ht, ha, hl]
                        at hdiff
                      rw [← hdiff]
                      simp [applyNodeChanges, hform, replaceWithContent, hpp,
                        structEqList, hrefl]
                  · simp [diffNodes, HNode.isElem, HNode.tagOf, ht, ha] at hdiff
                    rw [← hdiff]
                    simp [applyNodeChanges, hform, replaceWithContent, hpp,
                      structEqList, hrefl]
                · simp [diffNodes, HNode.isElem, HNode.tagOf, ht] at hdiff
                  rw [← hdiff]
                  simp [applyNodeChanges, hform, replaceWithContent, hpp,
                    structEqList, hrefl]
      · -- child-list case
        intro c1 c2 hsz hlen hnf hcl hw hrt t a pre
        cases c1 with
        | nil =>
            cases c2 with
            | nil => exact ⟨[], rfl, rfl⟩
            | cons y ys => simp at hlen
        | cons o1 os =>
            cases c2 with
            | nil => simp at hlen
            | cons n1 ns =>
                unfold noFormsList at hnf
                unfold compatList at hcl
                unfold wfAttrsList at hw
                rw [Bool.and_eq_true] at hnf hcl hw
                have hlen' : os.length = ns.length := by simpa using hlen
                have hrt1 : ∀ m ∈ subnodes n1, parseHTML (renderNode m) = [m] := by
                  intro m hm
                  exact hrt m (by simp [subnodesList, hm])
                have hrts : ∀ m ∈ subnodesList ns, parseHTML (renderNode m) = [m] := by
                  intro m hm
                  exact hrt m (by simp [subnodesList, hm])
                have hszo : sizeOf o1 + sizeOf n1 ≤ N := by
                  simp_arith at hsz
                  omega
                have hszs : sizeOf os + sizeOf ns ≤ N := by
                  have h1 := sizeOf_hnode_pos o1
                  have h2 := sizeOf_hnode_pos n1
                  simp_arith at hsz
                  omega
                rcases diffNodes_shape o1 n1 pre.length with hsh | ⟨v, hsh⟩
                · -- head diff empty: head is structurally unchanged
                  have hse : structEq o1 n1 = true :=
                    (diff_empty_structEq_all (sizeOf o1)).1 o1 n1 le_rfl
                      pre.length hsh
                  have hstep : pre ++ o1 :: os = (pre ++ [o1]) ++ os := by simp
                  obtain ⟨res', heq, hres⟩ :=
                    ih.2 os ns hszs hlen' hnf.2 hcl.2 hw.2 hrts t a (pre ++ [o1])
                  refine ⟨o1 :: res', ?_, ?_⟩
                  · unfold diffChildren
                    rw [hsh, List.nil_append]
                    have hlp : (pre ++ [o1]).length = pre.length + 1 := by simp
                    rw [hstep]
                    rw [← hlp]
                    rw [heq]
                    simp
                  · unfold structEqList
                    rw [Bool.and_eq_true]
                    exact ⟨hse, hres⟩
                · -- head diff non-empty: head is patched via applyNodeChanges
                  have happ := ih.1 o1 n1 hszo hnf.1 hcl.1 hw.1 hrt1
                    pre.length v hsh
                  obtain ⟨r1, hap, hr1⟩ := structEqList_singleton _ _ happ
                  have hstep : pre ++ r1 :: os = (pre ++ [r1]) ++ os := by simp
                  obtain ⟨res', heq, hres⟩ :=
                    ih.2 os ns hszs hlen' hnf.2 hcl.2 hw.2 hrts t a (pre ++ [r1])
                  refine ⟨r1 :: res', ?_, ?_⟩
                  · unfold diffChildren
                    rw [hsh]
                    rw [List.cons_append, List.nil_append]
                    simp only [applyDiffToNode]
                    rw [get?_append_cons]
                    simp only [hap]
                    rw [spliceAt_append_cons]
                    have hlp : (pre ++ [r1]).length = pre.length + 1 := by simp
                    have hsa : pre ++ ([r1] ++ os) = (pre ++ [r1]) ++ os := by simp
                    rw [hsa, ← hlp, heq]
                    simp
                  · unfold structEqList
                    rw [Bool.and_eq_true]
                    exact ⟨hr1, hres⟩

/-- C2, counterexample: the round-trip invariant fails as stated, with no
node under focus, in three concrete ways.
(1) When a text child becomes an element (`<div>hello</div>` →
`<div><span>x</span></div>`), the diff is a replacement leaf whose target in
the old DOM is a text node, and the client writes the serialized markup into
the text node's character data — the result keeps a text child holding the
literal string `<span>x</span>` instead of a `span` element.
(2) When a `select` gains an option, the child-count rule emits a
replacement of the `select`, but the client routes a form-control
replacement through `morphdom`, which updates attributes, handles the value
and returns without morphing children — the old single-option child list
survives.
(3) When the render is a bare text node, the client's `applyDiff` looks up
`container.firstElementChild`, finds none, and applies nothing. -/
theorem diff_apply_roundtrip_cex :
    (applyDiff cexOldText (diffNodes cexOldText cexNewElem 0)
        = [HNode.elem "div" [] [HNode.text "<span>x</span>"]] ∧
      structEqList (applyDiff cexOldText (diffNodes cexOldText cexNewElem 0))
        [cexNewElem] = false) ∧
    (applyDiff cexOldSelect (diffNodes cexOldSelect cexNewSelect 0)
        = [cexOldSelect] ∧
      structEqList (applyDiff cexOldSelect (diffNodes cexOldSelect cexNewSelect 0))
        [cexNewSelect] = false) ∧
    (applyDiff (HNode.text "hello")
        (diffNodes (HNode.text "hello") (HNode.text "world") 0)
        = [HNode.text "hello"] ∧
      structEqList
        (applyDiff (HNode.text "hello")
          (diffNodes (HNode.text "hello") (HNode.text "world") 0))
        [HNode.text "world"] = false) := by
  exact ⟨⟨rfl, rfl⟩, ⟨rfl, rfl⟩, ⟨rfl, rfl⟩⟩

/-- C2, amended: for any two DOM trees `t1`, `t2` (the parses of two renders
`R₁`, `R₂` of the same component), applying the patch `diffNodes t1 t2` via
the client's patch-application algorithm to `t1` yields exactly one node,
structurally equal (same tag structure, attributes and text) to `t2`,
provided that: no node holds user focus; `R₁`'s DOM root is an element;
`R₁`'s DOM contains no form control (`input`/`textarea`/`select`); no
structural position matched by the diff pairs a text node of `t1` with an
element node of `t2`; `t2`'s attribute keys are duplicate-free; and
serialize-then-reparse is faithful on `t2`'s subtrees (the
`renderNode`/`innerHTML` library boundary). -/
theorem diff_apply_structural (t1 t2 : HNode)
    (helem : t1.isElem = true)
    (hnf : noForms t1 = true)
    (hcompat : compat t1 t2 = true)
    (hw : wfAttrs t2 = true)
    (hrt : ∀ m ∈ subnodes t2, parseHTML (renderNode m) = [m]) :
    structEqList (applyDiff t1 (diffNodes t1 t2 0)) [t2] = true := by
  rcases diffNodes_shape t1 t2 0 with hdiff | ⟨v, hdiff⟩
  · rw [hdiff]
    have hse : structEq t1 t2 = true :=
      (diff_empty_structEq_all (sizeOf t1)).1 t1 t2 le_rfl 0 hdiff
    simp [applyDiff, helem, applyDiffToNode, structEqList, hse]
  · rw [hdiff]
    have happ := (diff_apply_all (sizeOf t1 + sizeOf t2)).1 t1 t2 le_rfl
      hnf hcompat hw hrt 0 v hdiff
    simpa [applyDiff, helem, List.lookup] using happ

/-- Witness for the amended C2: a counter component's render tick
(`count: 0` → `count: 1`) round-trips through diff and client apply to a DOM
structurally equal to the new render. -/
theorem diff_apply_structural_witness :
    structEqList
      (applyDiff
        (HNode.elem "div" [("id", "x")]
          [HNode.text "count: 0",
           HNode.elem "button" [("lv-click", "inc")] [HNode.text "+"]])
        (diffNodes
          (HNode.elem "div" [("id", "x")]
            [HNode.text "count: 0",
             HNode.elem "button" [("lv-click", "inc")] [HNode.text "+"]])
          (HNode.elem "div" [("id", "x")]
            [HNode.text "count: 1",
             HNode.elem "button" [("lv-click", "inc")] [HNode.text "+"]]) 0))
      [HNode.elem "div" [("id", "x")]
        [HNode.text "count: 1",
         HNode.elem "button" [("lv-click", "inc")] [HNode.text "+"]]] = true :=
  diff_apply_structural
    (HNode.elem "div" [("id", "x")]
      [HNode.text "count: 0",
       HNode.elem "button" [("lv-click", "inc")] [HNode.text "+"]])
    (HNode.elem "div" [("id", "x")]
      [HNode.text "count: 1",
       HNode.elem "button" [("lv-click", "inc")] [HNode.text "+"]])
    rfl rfl rfl rfl (by decide)
